import Mathlib

/-!
Verification of the training control loop of `train.py` (cst_captioning).

The definitions below are a shallow embedding of the Python source:
* `Metric`, `Infos`, `initInfos`, `currentScore`, `check_model` embed the
  checkpoint / history manager (`check_model`, lines 386-418, and the
  `infos` initialisation, lines 53-60);
* `terminGuard` and `loopIterationsTaken` embed the termination check of the
  training loop (lines 269-272);
* `ssProbOf`, `mixerFromOf`, `scbCaptionsOf` embed the annealing knobs
  (lines 108-114, 129-142, 144-162);
* `rlLatchStep`, `rlObjectiveTrace`, `rlRun` embed the XE-to-RL latch
  (lines 116-124 and the `if rl_training` objective branch, line 167);
* `numIters`, `sliceValBatch`, `processValBatch`, `valLoss`, `valScores`,
  `validateRun` embed the validation runner (`validate`, lines 277-375).

Python floats are idealised as exact rationals (`ℚ`) where the code does
arithmetic that the claims quantify over, and as reals (`ℝ`) where the code
uses `np.exp`.  Python's `round(x, 3)` (banker's rounding, half to even) is
embedded exactly on `ℚ` by `pyRound`.
-/

namespace CstCaptioning

/-- The evaluation metric selected by `opt.eval_metric`: one of the four
language metrics, or the composite `MSRVTT` used only for checkpoint
comparison. -/
inductive Metric where
  | Bleu_4 : Metric
  | METEOR : Metric
  | ROUGE_L : Metric
  | CIDEr : Metric
  | MSRVTT : Metric
deriving DecidableEq, Repr

/-- The mutable `infos` dict of `train` (train.py lines 53-60), restricted to
the fields `check_model` and the termination check read and write.  The four
language-metric fields are written into `infos` by `infos.update(results['scores'])`
before each `check_model` call; they are absent from the dict until the first
validation, which the embedding renders as default value `0`.
`best_score` is `-inf`-initialised in the source, embedded as `⊥ : WithBot ℚ`. -/
structure Infos where
  iter : ℤ
  epoch : ℤ
  start_epoch : ℤ
  best_score : WithBot ℚ
  best_iter : ℤ
  best_epoch : ℤ
  bleu_4 : ℚ := 0
  meteor : ℚ := 0
  rouge_l : ℚ := 0
  cider : ℚ := 0
deriving DecidableEq

/-- The fresh-run initialisation of `infos` (train.py lines 53-60): note
`best_epoch` is initialised to `opt.max_epochs`, not `0`. -/
def initInfos (max_epochs : ℤ) : Infos :=
  { iter := 0
    epoch := 0
    start_epoch := 0
    best_score := ⊥
    best_iter := 0
    best_epoch := max_epochs }

/-- `current_score` computed at the top of `check_model` (train.py lines
387-391): the sum of the four language metrics when `opt.eval_metric` is the
composite `MSRVTT`, else the single configured metric's entry of `infos`. -/
def currentScore : Metric → Infos → ℚ
  | .MSRVTT, i => i.bleu_4 + i.meteor + i.rouge_l + i.cider
  | .Bleu_4, i => i.bleu_4
  | .METEOR, i => i.meteor
  | .ROUGE_L, i => i.rouge_l
  | .CIDEr, i => i.cider

/-- `check_model` (train.py lines 386-418).  Takes the configured metric, the
current `infos` and the history mapping; returns the updated `infos`, the
updated history, and whether the model checkpoint file was written.  The best
fields update and the checkpoint write happen iff `current_score >= best_score`;
the history entry for the current epoch is (over)written unconditionally with a
copy of the (possibly updated) `infos`. -/
def check_model (eval_metric : Metric) (infos : Infos) (hist : ℤ → Option Infos) :
    Infos × (ℤ → Option Infos) × Bool :=
  let current_score : WithBot ℚ := (currentScore eval_metric infos : ℚ)
  if infos.best_score ≤ current_score then
    let infos' := { infos with
      best_score := current_score
      best_iter := infos.iter
      best_epoch := infos.epoch }
    (infos', fun e => if e = infos.epoch then some infos' else hist e, true)
  else
    (infos, fun e => if e = infos.epoch then some infos else hist e, false)

/-- The termination guard of the training loop (train.py lines 269-270):
`infos['epoch'] >= opt.max_epochs or infos['epoch'] - infos['best_epoch'] > opt.max_patience`. -/
def terminGuard (epoch best_epoch max_epochs max_patience : ℤ) : Bool :=
  decide (epoch ≥ max_epochs) || decide (epoch - best_epoch > max_patience)

/-- The `while True` training loop viewed through its termination behaviour
(train.py lines 100, 269-272).  `epochs` lists the value of `infos['epoch']`
at the end-of-body termination check of each successive iteration, and
`best_epoch` is held at its stuck value; the result is the number of loop
iterations executed: the body runs, then the guard is evaluated, and the loop
breaks as soon as the guard holds. -/
def loopIterationsTaken (max_epochs max_patience best_epoch : ℤ) : List ℤ → ℕ
  | [] => 0
  | e :: rest =>
      if terminGuard e best_epoch max_epochs max_patience then 1
      else 1 + loopIterationsTaken max_epochs max_patience best_epoch rest

theorem loopIterationsTaken_eq (max_epochs max_patience best_epoch : ℤ)
    (l : List ℤ) :
    loopIterationsTaken max_epochs max_patience best_epoch l =
      (l.takeWhile (fun e => ! terminGuard e best_epoch max_epochs max_patience)).length
        + (if l.any (fun e => terminGuard e best_epoch max_epochs max_patience) then 1 else 0) := by
  induction l with
  | nil => simp [loopIterationsTaken]
  | cons e rest ih =>
      by_cases h : terminGuard e best_epoch max_epochs max_patience
      · simp [loopIterationsTaken, h, List.takeWhile, List.any]
      · simp only [loopIterationsTaken, h, if_neg, List.takeWhile, List.any]
        simp [h, ih, Nat.add_comm, Nat.add_assoc, Nat.add_left_comm]

/-- C1: the loop stops exactly when the guard `epoch ≥ max_epochs ∨
epoch - best_epoch > max_patience` first holds, the guard being evaluated at
every iteration; but with `max_epochs = 5`, `max_patience = 2` and
`best_epoch` stuck at `1`, the guard is still false at epoch 3 (since
`3 - 1 > 2` fails), so the loop runs through every iteration of epochs 0-3 and
stops only at the first iteration of epoch 4. -/
theorem trainLoop_stops_at_first_guard :
    (∀ (max_epochs max_patience best_epoch : ℤ) (l : List ℤ),
      loopIterationsTaken max_epochs max_patience best_epoch l =
        (l.takeWhile (fun e => ! terminGuard e best_epoch max_epochs max_patience)).length
          + (if l.any (fun e => terminGuard e best_epoch max_epochs max_patience) then 1 else 0))
    ∧ terminGuard 3 1 5 2 = false
    ∧ terminGuard 4 1 5 2 = true
    ∧ loopIterationsTaken 5 2 1 [0, 1, 2, 3] = 4
    ∧ loopIterationsTaken 5 2 1 [0, 1, 2, 3, 4, 5, 6] = 5 := by
  refine ⟨loopIterationsTaken_eq, ?_, ?_, ?_, ?_⟩ <;> decide

/-- C1, counterexample to the claim as stated: with `maxEpochs = 5`,
`maxPatience = 2` and `bestEpoch` stuck at epoch 1, training does NOT stop by
epoch 3: the guard is false at epoch 3, and a schedule running one iteration
in each of epochs 0, 1, 2, 3 executes all four iterations without breaking. -/
theorem trainLoop_not_stopped_at_epoch3 :
    terminGuard 3 1 5 2 = false ∧ loopIterationsTaken 5 2 1 [0, 1, 2, 3] = 4 := by
  constructor <;> decide

/-- C10: on a fresh (non-resumed) run `infos['best_epoch']` is initialised to
`opt.max_epochs` (not 0), and while `best_epoch` still has this initial value
the termination guard holds exactly when `epoch ≥ max_epochs` (for any
non-negative patience): the patience disjunct `epoch - max_epochs > max_patience`
forces `epoch > max_epochs`, so it can never fire before `epoch ≥ max_epochs`
does; a fresh run that never updates its best score terminates only via
`epoch ≥ max_epochs`. -/
theorem freshRun_patience_never_cause (max_epochs max_patience epoch : ℤ)
    (hp : 0 ≤ max_patience) :
    (initInfos max_epochs).best_epoch = max_epochs ∧
    (terminGuard epoch (initInfos max_epochs).best_epoch max_epochs max_patience = true
      ↔ epoch ≥ max_epochs) := by
  refine ⟨rfl, ?_⟩
  simp only [initInfos, terminGuard, Bool.or_eq_true, decide_eq_true_eq]
  constructor
  · rintro (h | h)
    · exact h
    · omega
  · exact fun h => Or.inl h

/-- Witness for `freshRun_patience_never_cause` at `max_epochs = 5`,
`max_patience = 2`, `epoch = 5`. -/
theorem freshRun_patience_never_cause_witness :
    (0 : ℤ) ≤ 2 ∧
    ((initInfos 5).best_epoch = 5 ∧
      (terminGuard 5 (initInfos 5).best_epoch 5 2 = true ↔ (5 : ℤ) ≥ 5)) :=
  ⟨by decide, freshRun_patience_never_cause 5 2 5 (by decide)⟩

theorem currentScore_best_update (m : Metric) (infos : Infos) (c : WithBot ℚ)
    (bi be : ℤ) :
    currentScore m { infos with best_score := c, best_iter := bi, best_epoch := be }
      = currentScore m infos := by
  cases m <;> rfl

/-- C2: in every `check_model` call, the current score is the sum
`Bleu_4 + METEOR + ROUGE_L + CIDEr` when the configured metric is the
composite `MSRVTT` and the single configured metric's entry otherwise; the
best-score/best-iteration/best-epoch fields are updated and the checkpoint
is written if and only if `current_score >= best_score` (so a tie updates
`best_epoch` to the later epoch); when `current_score < best_score` the
`infos` are returned unchanged and no checkpoint is written. -/
theorem check_model_best_update (m : Metric) (infos : Infos)
    (hist : ℤ → Option Infos) :
    (currentScore .MSRVTT infos = infos.bleu_4 + infos.meteor + infos.rouge_l + infos.cider
      ∧ currentScore .Bleu_4 infos = infos.bleu_4
      ∧ currentScore .METEOR infos = infos.meteor
      ∧ currentScore .ROUGE_L infos = infos.rouge_l
      ∧ currentScore .CIDEr infos = infos.cider)
    ∧ ((check_model m infos hist).2.2 = true
        ↔ infos.best_score ≤ ((currentScore m infos : ℚ) : WithBot ℚ))
    ∧ (infos.best_score ≤ ((currentScore m infos : ℚ) : WithBot ℚ) →
        (check_model m infos hist).1.best_score = ((currentScore m infos : ℚ) : WithBot ℚ)
          ∧ (check_model m infos hist).1.best_iter = infos.iter
          ∧ (check_model m infos hist).1.best_epoch = infos.epoch)
    ∧ (¬ infos.best_score ≤ ((currentScore m infos : ℚ) : WithBot ℚ) →
        (check_model m infos hist).1 = infos ∧ (check_model m infos hist).2.2 = false) := by
  refine ⟨⟨rfl, rfl, rfl, rfl, rfl⟩, ?_, ?_, ?_⟩ <;>
    by_cases h : infos.best_score ≤ ((currentScore m infos : ℚ) : WithBot ℚ) <;>
      simp [check_model, h]

/-- Witness for `check_model_best_update`: a fresh `infos` has
`best_score = -inf`, so the first check always updates the best fields and
writes the checkpoint. -/
theorem check_model_best_update_witness :
    (initInfos 5).best_score ≤ ((currentScore .CIDEr (initInfos 5) : ℚ) : WithBot ℚ)
    ∧ (check_model .CIDEr (initInfos 5) (fun _ => none)).1.best_epoch = 0
    ∧ (check_model .CIDEr (initInfos 5) (fun _ => none)).2.2 = true := by
  have h := check_model_best_update .CIDEr (initInfos 5) (fun _ => none)
  exact ⟨bot_le, (h.2.2.1 bot_le).2.2, (h.2.1).2 bot_le⟩

/-- C3: `check_model` is idempotent: calling it a second time with the same
scores and unchanged epoch/iteration returns exactly the same `infos`,
history and checkpoint decision; and the history write stores the snapshot
under the key `infos['epoch']`, overwriting any previous entry for that
epoch (so the history has at most one entry per epoch). -/
theorem check_model_idempotent (m : Metric) (infos : Infos)
    (hist : ℤ → Option Infos) :
    check_model m (check_model m infos hist).1 (check_model m infos hist).2.1
        = check_model m infos hist
    ∧ ∀ e : ℤ, (check_model m infos hist).2.1 e
        = if e = infos.epoch then some (check_model m infos hist).1 else hist e := by
  constructor
  · by_cases h : infos.best_score ≤ ((currentScore m infos : ℚ) : WithBot ℚ)
    · have h1 : (check_model m infos hist).1 = { infos with
          best_score := ((currentScore m infos : ℚ) : WithBot ℚ)
          best_iter := infos.iter
          best_epoch := infos.epoch } := by
        simp [check_model, h]
      have h2 : (check_model m infos hist).2.1 = fun e =>
          if e = infos.epoch then some (check_model m infos hist).1 else hist e := by
        simp [check_model, h]
      rw [h2, h1]
      simp only [check_model, currentScore_best_update, le_refl, if_pos]
      simp [check_model, h]
      funext e
      by_cases he : e = infos.epoch <;> simp [he]
    · have h1 : (check_model m infos hist).1 = infos := by
        simp [check_model, h]
      have h2 : (check_model m infos hist).2.1 = fun e =>
          if e = infos.epoch then some infos else hist e := by
        simp [check_model, h]
      rw [h2, h1]
      simp only [check_model, h, if_neg, not_false_iff]
      simp [check_model, h]
      funext e
      by_cases he : e = infos.epoch <;> simp [he]
  · intro e
    by_cases h : infos.best_score ≤ ((currentScore m infos : ℚ) : WithBot ℚ) <;>
      simp [check_model, h]

/-- The configuration object `opt` (argv-driven options plus derived fields),
restricted to the fields the training loop of `train.py` reads or writes.
Integer-valued options are `ℤ`; the scheduled-sampling rate `ss_k`, cap
`ss_max_prob` and the derived `ss_prob` are floats, idealised as `ℝ`.
All fields default to `0` so that concrete instances can list only the
fields a statement is about. -/
structure Opt where
  use_ss : ℤ := 0
  use_ss_after : ℤ := 0
  ss_k : ℝ := 0
  ss_max_prob : ℝ := 0
  ss_prob : ℝ := 0
  use_rl : ℤ := 0
  use_rl_after : ℤ := 0
  use_cst : ℤ := 0
  use_cst_after : ℤ := 0
  use_mixer : ℤ := 0
  mixer_from : ℤ := 0
  mixer_descrease_every : ℤ := 0
  scb_captions : ℤ := 0
  cst_increase_every : ℤ := 0
  seq_length : ℤ := 0
  max_epochs : ℤ := 0
  max_patience : ℤ := 0

/-- The local `mixer_from` computed each iteration (train.py lines 129-142):
it starts as `opt.mixer_from`; when the mixer is in use and the RL phase is
active, a configured value of `-1` selects auto-annealing
`max(1, seq_length - ceil((epoch - use_rl_after + 1) / mixer_descrease_every))`,
and any other configured value is used unchanged. -/
def mixerFromOf (o : Opt) (rl_training : Bool) (epoch : ℤ) : ℤ :=
  if o.use_mixer = 1 ∧ rl_training = true then
    if o.mixer_from = -1 then
      max 1 (o.seq_length -
        ⌈((epoch - o.use_rl_after + 1 : ℤ) : ℚ) / ((o.mixer_descrease_every : ℤ) : ℚ)⌉)
    else o.mixer_from
  else o.mixer_from

/-- The local `scb_captions` computed each iteration (train.py lines 144-162):
it starts as `opt.scb_captions`; when CST is in use and the RL phase is
active, a configured value of `-1` selects auto-annealing
`min(ceil((epoch - use_cst_after + 1) / cst_increase_every), seq_per_img - 1)`,
and any other configured value is used unchanged. -/
def scbCaptionsOf (o : Opt) (rl_training : Bool) (seq_per_img : ℤ) (epoch : ℤ) : ℤ :=
  if o.use_cst = 1 ∧ rl_training = true then
    if o.scb_captions = -1 then
      min ⌈((epoch - o.use_cst_after + 1 : ℤ) : ℚ) / ((o.cst_increase_every : ℤ) : ℚ)⌉
        (seq_per_img - 1)
    else o.scb_captions
  else o.scb_captions

theorem ceil_div_mono {a b : ℤ} (d : ℤ) (hd : 0 < d) (hab : a ≤ b) :
    ⌈((a : ℚ)) / ((d : ℤ) : ℚ)⌉ ≤ ⌈((b : ℚ)) / ((d : ℤ) : ℚ)⌉ := by
  have hd' : (0 : ℚ) < ((d : ℤ) : ℚ) := by exact_mod_cast hd
  have hab' : ((a : ℚ)) ≤ ((b : ℚ)) := by exact_mod_cast hab
  exact Int.ceil_mono ((div_le_div_iff_of_pos_right hd').mpr hab')

/-- C6: with the mixer in use and the RL phase active, a configured cutoff of
`-1` yields `max(1, seq_length - ceil((epoch - use_rl_after + 1) / mixer_descrease_every))`,
which is at least 1 at every epoch and non-increasing over successive epochs;
a fixed (non `-1`) configured cutoff is returned unchanged. -/
theorem mixerFrom_spec (o : Opt) (hm : o.use_mixer = 1)
    (hd : 0 < o.mixer_descrease_every) :
    (∀ epoch : ℤ, o.mixer_from = -1 →
        mixerFromOf o true epoch
          = max 1 (o.seq_length -
              ⌈((epoch - o.use_rl_after + 1 : ℤ) : ℚ) / ((o.mixer_descrease_every : ℤ) : ℚ)⌉))
    ∧ (∀ epoch : ℤ, o.mixer_from = -1 → 1 ≤ mixerFromOf o true epoch)
    ∧ (∀ e₁ e₂ : ℤ, e₁ ≤ e₂ → mixerFromOf o true e₂ ≤ mixerFromOf o true e₁)
    ∧ (∀ epoch : ℤ, o.mixer_from ≠ -1 → mixerFromOf o true epoch = o.mixer_from) := by
  refine ⟨?_, ?_, ?_, ?_⟩
  · intro epoch ha
    simp [mixerFromOf, hm, ha]
  · intro epoch ha
    simp [mixerFromOf, hm, ha]
  · intro e₁ e₂ h
    by_cases ha : o.mixer_from = -1
    · have key : ∀ e : ℤ, mixerFromOf o true e
          = max 1 (o.seq_length -
              ⌈((e - o.use_rl_after + 1 : ℤ) : ℚ) / ((o.mixer_descrease_every : ℤ) : ℚ)⌉) := by
        intro e
        simp [mixerFromOf, hm, ha]
      have hc : ⌈((e₁ - o.use_rl_after + 1 : ℤ) : ℚ) / ((o.mixer_descrease_every : ℤ) : ℚ)⌉
          ≤ ⌈((e₂ - o.use_rl_after + 1 : ℤ) : ℚ) / ((o.mixer_descrease_every : ℤ) : ℚ)⌉ :=
        ceil_div_mono o.mixer_descrease_every hd (by omega)
      rw [key e₁, key e₂]
      exact max_le_max (le_refl 1) (by omega)
    · simp [mixerFromOf, hm, ha]
  · intro epoch ha
    simp [mixerFromOf, hm, ha]

/-- Witness for `mixerFrom_spec`: a concrete auto-annealing configuration
(`seq_length = 10`, `mixer_descrease_every = 2`, RL start at epoch 0),
evaluated at epochs 3 and 7. -/
theorem mixerFrom_spec_witness :
    ({ use_mixer := 1, mixer_from := -1, mixer_descrease_every := 2, seq_length := 10 } : Opt).use_mixer = 1
    ∧ (0 : ℤ) < ({ use_mixer := 1, mixer_from := -1, mixer_descrease_every := 2, seq_length := 10 } : Opt).mixer_descrease_every
    ∧ (1 : ℤ) ≤ mixerFromOf ({ use_mixer := 1, mixer_from := -1, mixer_descrease_every := 2, seq_length := 10 } : Opt) true 3
    ∧ mixerFromOf ({ use_mixer := 1, mixer_from := -1, mixer_descrease_every := 2, seq_length := 10 } : Opt) true 7
      ≤ mixerFromOf ({ use_mixer := 1, mixer_from := -1, mixer_descrease_every := 2, seq_length := 10 } : Opt) true 3 := by
  have h := mixerFrom_spec
    ({ use_mixer := 1, mixer_from := -1, mixer_descrease_every := 2, seq_length := 10 } : Opt)
    rfl (by decide)
  exact ⟨rfl, by decide, h.2.1 3 rfl, h.2.2.1 3 7 (by decide)⟩

/-- C7: with CST in use and the RL phase active, a fixed (non `-1`) configured
robust-baseline caption count is used unchanged; a configured value of `-1`
yields `min(ceil((epoch - use_cst_after + 1) / cst_increase_every), seq_per_img - 1)`,
which is non-decreasing over epochs and never exceeds `seq_per_img - 1`. -/
theorem scbCaptions_spec (o : Opt) (seq_per_img : ℤ) (hc : o.use_cst = 1)
    (hd : 0 < o.cst_increase_every) :
    (∀ epoch : ℤ, o.scb_captions ≠ -1 →
        scbCaptionsOf o true seq_per_img epoch = o.scb_captions)
    ∧ (∀ epoch : ℤ, o.scb_captions = -1 →
        scbCaptionsOf o true seq_per_img epoch
          = min ⌈((epoch - o.use_cst_after + 1 : ℤ) : ℚ) / ((o.cst_increase_every : ℤ) : ℚ)⌉
              (seq_per_img - 1))
    ∧ (∀ e₁ e₂ : ℤ, e₁ ≤ e₂ →
        scbCaptionsOf o true seq_per_img e₁ ≤ scbCaptionsOf o true seq_per_img e₂)
    ∧ (∀ epoch : ℤ, o.scb_captions = -1 →
        scbCaptionsOf o true seq_per_img epoch ≤ seq_per_img - 1) := by
  refine ⟨?_, ?_, ?_, ?_⟩
  · intro epoch ha
    simp [scbCaptionsOf, hc, ha]
  · intro epoch ha
    simp [scbCaptionsOf, hc, ha]
  · intro e₁ e₂ h
    by_cases ha : o.scb_captions = -1
    · have key : ∀ e : ℤ, scbCaptionsOf o true seq_per_img e
          = min ⌈((e - o.use_cst_after + 1 : ℤ) : ℚ) / ((o.cst_increase_every : ℤ) : ℚ)⌉
              (seq_per_img - 1) := by
        intro e
        simp [scbCaptionsOf, hc, ha]
      have hcl : ⌈((e₁ - o.use_cst_after + 1 : ℤ) : ℚ) / ((o.cst_increase_every : ℤ) : ℚ)⌉
          ≤ ⌈((e₂ - o.use_cst_after + 1 : ℤ) : ℚ) / ((o.cst_increase_every : ℤ) : ℚ)⌉ :=
        ceil_div_mono o.cst_increase_every hd (by omega)
      rw [key e₁, key e₂]
      exact min_le_min hcl (le_refl _)
    · simp [scbCaptionsOf, hc, ha]
  · intro epoch ha
    have key : scbCaptionsOf o true seq_per_img epoch
        = min ⌈((epoch - o.use_cst_after + 1 : ℤ) : ℚ) / ((o.cst_increase_every : ℤ) : ℚ)⌉
            (seq_per_img - 1) := by
      simp [scbCaptionsOf, hc, ha]
    rw [key]
    exact min_le_right _ _

/-- Witness for `scbCaptions_spec`: a concrete auto-annealing configuration
(`cst_increase_every = 2`, `seq_per_img = 20`, CST start at epoch 0),
evaluated at epochs 3 and 7. -/
theorem scbCaptions_spec_witness :
    ({ use_cst := 1, scb_captions := -1, cst_increase_every := 2 } : Opt).use_cst = 1
    ∧ (0 : ℤ) < ({ use_cst := 1, scb_captions := -1, cst_increase_every := 2 } : Opt).cst_increase_every
    ∧ scbCaptionsOf ({ use_cst := 1, scb_captions := -1, cst_increase_every := 2 } : Opt)
        true 20 3
      ≤ scbCaptionsOf ({ use_cst := 1, scb_captions := -1, cst_increase_every := 2 } : Opt)
        true 20 7
    ∧ scbCaptionsOf ({ use_cst := 1, scb_captions := -1, cst_increase_every := 2 } : Opt)
        true 20 7 ≤ 19 := by
  have h := scbCaptions_spec
    ({ use_cst := 1, scb_captions := -1, cst_increase_every := 2 } : Opt) 20 rfl (by decide)
  exact ⟨rfl, by decide, h.2.2.1 3 7 (by decide), h.2.2.2 7 rfl⟩

/-- The scheduled-sampling probability computed each iteration (train.py
lines 108-114): the body first sets `opt.ss_prob = 0`; when `use_ss == 1` and
`epoch >= use_ss_after` it overwrites it with
`min(1 - ss_k / (ss_k + exp((epoch - use_ss_after) / ss_k)), ss_max_prob)`. -/
noncomputable def ssProbOf (o : Opt) (epoch : ℤ) : ℝ :=
  if o.use_ss = 1 ∧ o.use_ss_after ≤ epoch then
    min (1 - o.ss_k / (o.ss_k + Real.exp (((epoch - o.use_ss_after : ℤ) : ℝ) / o.ss_k)))
      o.ss_max_prob
  else 0

/-- The effect of one iteration of the training-loop body on the
configuration object: the only `opt` field assigned inside the loop body is
the scheduled-sampling scratch field `ss_prob` (train.py lines 109 and 113);
every other field is read but never written there. -/
noncomputable def iterUpdateOpt (o : Opt) (epoch : ℤ) : Opt :=
  { o with ss_prob := ssProbOf o epoch }

theorem ssProb_inner_mono {k : ℝ} (hk : 0 < k) {x y : ℝ} (hxy : x ≤ y) :
    1 - k / (k + Real.exp x) ≤ 1 - k / (k + Real.exp y) := by
  have hx : (0 : ℝ) < k + Real.exp x := by positivity
  have hy : (0 : ℝ) < k + Real.exp y := by positivity
  have hle : k + Real.exp x ≤ k + Real.exp y := by
    have := Real.exp_le_exp.mpr hxy
    linarith
  have hdiv : k / (k + Real.exp y) ≤ k / (k + Real.exp x) := by
    gcongr
  linarith

theorem ssProb_inner_nonneg {k : ℝ} (hk : 0 < k) {x : ℝ} :
    0 ≤ 1 - k / (k + Real.exp x) := by
  have hx : (0 : ℝ) < k + Real.exp x := by positivity
  have h1 : k / (k + Real.exp x) ≤ 1 := by
    rw [div_le_one hx]
    have := Real.exp_pos x
    linarith
  linarith

/-- C5: with scheduled sampling enabled, the probability is `0` for every
epoch before `use_ss_after` and equals
`min(1 - ss_k/(ss_k + exp((epoch - use_ss_after)/ss_k)), ss_max_prob)` from
`use_ss_after` on; as a function of the epoch it is non-decreasing and is
bounded above by `ss_max_prob`. -/
theorem ssProb_spec (o : Opt) (hss : o.use_ss = 1) (hk : 0 < o.ss_k)
    (hM : 0 ≤ o.ss_max_prob) :
    (∀ epoch : ℤ, epoch < o.use_ss_after → ssProbOf o epoch = 0)
    ∧ (∀ epoch : ℤ, o.use_ss_after ≤ epoch →
        ssProbOf o epoch
          = min (1 - o.ss_k /
                (o.ss_k + Real.exp (((epoch - o.use_ss_after : ℤ) : ℝ) / o.ss_k)))
              o.ss_max_prob)
    ∧ (∀ e₁ e₂ : ℤ, e₁ ≤ e₂ → ssProbOf o e₁ ≤ ssProbOf o e₂)
    ∧ (∀ epoch : ℤ, ssProbOf o epoch ≤ o.ss_max_prob) := by
  have hval : ∀ epoch : ℤ, o.use_ss_after ≤ epoch →
      ssProbOf o epoch
        = min (1 - o.ss_k /
              (o.ss_k + Real.exp (((epoch - o.use_ss_after : ℤ) : ℝ) / o.ss_k)))
            o.ss_max_prob := by
    intro epoch he
    simp [ssProbOf, hss, he]
  have hzero : ∀ epoch : ℤ, epoch < o.use_ss_after → ssProbOf o epoch = 0 := by
    intro epoch he
    have : ¬ (o.use_ss = 1 ∧ o.use_ss_after ≤ epoch) := by
      rintro ⟨-, h⟩
      omega
    simp [ssProbOf, this]
  have hnonneg : ∀ epoch : ℤ, o.use_ss_after ≤ epoch → 0 ≤ ssProbOf o epoch := by
    intro epoch he
    rw [hval epoch he]
    exact le_min (ssProb_inner_nonneg hk) hM
  refine ⟨hzero, hval, ?_, ?_⟩
  · intro e₁ e₂ h
    by_cases h₁ : o.use_ss_after ≤ e₁
    · have h₂ : o.use_ss_after ≤ e₂ := by omega
      rw [hval e₁ h₁, hval e₂ h₂]
      refine min_le_min ?_ (le_refl _)
      refine ssProb_inner_mono hk ?_
      have hnum : ((e₁ - o.use_ss_after : ℤ) : ℝ) ≤ ((e₂ - o.use_ss_after : ℤ) : ℝ) := by
        exact_mod_cast (by omega : (e₁ - o.use_ss_after : ℤ) ≤ e₂ - o.use_ss_after)
      exact (div_le_div_iff_of_pos_right hk).mpr hnum
    · rw [hzero e₁ (by omega)]
      by_cases h₂ : o.use_ss_after ≤ e₂
      · exact hnonneg e₂ h₂
      · rw [hzero e₂ (by omega)]
  · intro epoch
    by_cases he : o.use_ss_after ≤ epoch
    · rw [hval epoch he]
      exact min_le_right _ _
    · rw [hzero epoch (by omega)]
      exact hM

/-- Witness for `ssProb_spec`: scheduled sampling enabled with `ss_k = 1`,
cap `ss_max_prob = 1`, threshold epoch 0; the probability at epoch 2 is at
most the cap and at least the probability at epoch 1. -/
theorem ssProb_spec_witness :
    ({ use_ss := 1, ss_k := 1, ss_max_prob := 1 } : Opt).use_ss = 1
    ∧ (0 : ℝ) < ({ use_ss := 1, ss_k := 1, ss_max_prob := 1 } : Opt).ss_k
    ∧ (0 : ℝ) ≤ ({ use_ss := 1, ss_k := 1, ss_max_prob := 1 } : Opt).ss_max_prob
    ∧ ssProbOf ({ use_ss := 1, ss_k := 1, ss_max_prob := 1 } : Opt) 1
      ≤ ssProbOf ({ use_ss := 1, ss_k := 1, ss_max_prob := 1 } : Opt) 2
    ∧ ssProbOf ({ use_ss := 1, ss_k := 1, ss_max_prob := 1 } : Opt) 2
      ≤ ({ use_ss := 1, ss_k := 1, ss_max_prob := 1 } : Opt).ss_max_prob := by
  have h := ssProb_spec ({ use_ss := 1, ss_k := 1, ss_max_prob := 1 } : Opt)
    rfl (by norm_num) (by norm_num)
  exact ⟨rfl, by norm_num, by norm_num, h.2.2.1 1 2 (by decide), h.2.2.2 2⟩

/-- C4, counterexample to the claim as stated: the configuration object is
not left unchanged by every loop iteration.  An iteration of the loop body
always assigns `opt.ss_prob` (line 109 sets it to 0 before the scheduled
sampling branch), so a configuration entering an iteration with
`ss_prob = 1` and scheduled sampling disabled comes out with `ss_prob = 0`,
a different configuration object. -/
theorem opt_mutated_by_iteration :
    iterUpdateOpt ({ ss_prob := 1 } : Opt) 0 ≠ ({ ss_prob := 1 } : Opt) := by
  intro h
  have h0 : (iterUpdateOpt ({ ss_prob := 1 } : Opt) 0).ss_prob = 0 := by
    simp [iterUpdateOpt, ssProbOf]
  rw [h] at h0
  norm_num at h0

/-- C4, amended: the training loop never mutates the annealing knobs — for
every iteration, every configuration field other than the scheduled-sampling
scratch field `ss_prob` (the `useAfter` thresholds, the rate `ss_k`, the cap
`ss_max_prob`, the step sizes `mixer_descrease_every` / `cst_increase_every`,
and the remaining knobs) is identical at loop exit to its value at loop
entry; only `ss_prob` is rewritten each iteration. -/
theorem iterUpdateOpt_preserves_knobs (o : Opt) (epoch : ℤ) :
    (iterUpdateOpt o epoch).use_ss = o.use_ss
    ∧ (iterUpdateOpt o epoch).use_ss_after = o.use_ss_after
    ∧ (iterUpdateOpt o epoch).ss_k = o.ss_k
    ∧ (iterUpdateOpt o epoch).ss_max_prob = o.ss_max_prob
    ∧ (iterUpdateOpt o epoch).use_rl = o.use_rl
    ∧ (iterUpdateOpt o epoch).use_rl_after = o.use_rl_after
    ∧ (iterUpdateOpt o epoch).use_cst = o.use_cst
    ∧ (iterUpdateOpt o epoch).use_cst_after = o.use_cst_after
    ∧ (iterUpdateOpt o epoch).use_mixer = o.use_mixer
    ∧ (iterUpdateOpt o epoch).mixer_from = o.mixer_from
    ∧ (iterUpdateOpt o epoch).mixer_descrease_every = o.mixer_descrease_every
    ∧ (iterUpdateOpt o epoch).scb_captions = o.scb_captions
    ∧ (iterUpdateOpt o epoch).cst_increase_every = o.cst_increase_every
    ∧ (iterUpdateOpt o epoch).seq_length = o.seq_length
    ∧ (iterUpdateOpt o epoch).max_epochs = o.max_epochs
    ∧ (iterUpdateOpt o epoch).max_patience = o.max_patience :=
  ⟨rfl, rfl, rfl, rfl, rfl, rfl, rfl, rfl, rfl, rfl, rfl, rfl, rfl, rfl, rfl, rfl⟩

/-- The XE→RL latch state of the training loop: the `rl_training` flag
(train.py line 63, set at line 118) and the number of times a metric scorer
`bcmr_scorer` has been instantiated (line 119-124). -/
structure RlState where
  rl_training : Bool
  scorer_inits : ℕ
deriving DecidableEq, Repr

/-- One iteration of the latch check (train.py lines 116-124): when
`opt.use_rl == 1`, the current epoch has reached `opt.use_rl_after` and
`rl_training` is not yet set, set `rl_training` and instantiate the metric
scorer; otherwise leave the state untouched. -/
def rlLatchStep (use_rl use_rl_after : ℤ) (s : RlState) (epoch : ℤ) : RlState :=
  if use_rl = 1 ∧ use_rl_after ≤ epoch ∧ s.rl_training = false then
    { rl_training := true, scorer_inits := s.scorer_inits + 1 }
  else s

/-- The per-iteration objective selection of the loop body: each iteration
first runs the latch check (lines 116-124) and then branches on
`rl_training` (line 167), `true` meaning the RL objective and `false` the
cross-entropy objective.  Given the epoch of every successive iteration this
returns the objective chosen at each iteration. -/
def rlObjectiveTrace (use_rl use_rl_after : ℤ) : RlState → List ℤ → List Bool
  | _, [] => []
  | s, e :: rest =>
      (rlLatchStep use_rl use_rl_after s e).rl_training ::
        rlObjectiveTrace use_rl use_rl_after (rlLatchStep use_rl use_rl_after s e) rest

/-- The latch state after running the given iterations. -/
def rlRun (use_rl use_rl_after : ℤ) (s : RlState) (epochs : List ℤ) : RlState :=
  epochs.foldl (rlLatchStep use_rl use_rl_after) s

theorem rlLatchStep_of_rl_training (use_rl use_rl_after : ℤ) (c : ℕ) (e : ℤ) :
    rlLatchStep use_rl use_rl_after ⟨true, c⟩ e = ⟨true, c⟩ := by
  simp [rlLatchStep]

theorem rlObjectiveTrace_of_rl_training (use_rl use_rl_after : ℤ) (c : ℕ)
    (l : List ℤ) :
    rlObjectiveTrace use_rl use_rl_after ⟨true, c⟩ l = List.replicate l.length true := by
  induction l with
  | nil => rfl
  | cons e rest ih =>
      simp [rlObjectiveTrace, rlLatchStep_of_rl_training, ih, List.replicate]

theorem rlRun_of_rl_training (use_rl use_rl_after : ℤ) (c : ℕ) (l : List ℤ) :
    rlRun use_rl use_rl_after ⟨true, c⟩ l = ⟨true, c⟩ := by
  induction l with
  | nil => rfl
  | cons e rest ih =>
      simp [rlRun, List.foldl, rlLatchStep_of_rl_training] at ih ⊢
      exact ih

theorem replicate_getD_true (n i : ℕ) (h : i < n) :
    (List.replicate n true).getD i false = true := by
  induction n generalizing i with
  | zero => omega
  | succ m ih =>
      cases i with
      | zero => rfl
      | succ j => exact ih j (by omega)

theorem rlObjectiveTrace_getD (use_rl use_rl_after : ℤ) (c : ℕ) (l : List ℤ)
    (i : ℕ) (h : i < l.length) :
    (rlObjectiveTrace use_rl use_rl_after ⟨false, c⟩ l).getD i false
      = (l.take (i + 1)).any (fun e => decide (use_rl = 1) && decide (use_rl_after ≤ e)) := by
  induction l generalizing i c with
  | nil => simp at h
  | cons e rest ih =>
      by_cases hg : use_rl = 1 ∧ use_rl_after ≤ e
      · have hstep : rlLatchStep use_rl use_rl_after ⟨false, c⟩ e = ⟨true, c + 1⟩ := by
          simp [rlLatchStep, hg.1, hg.2]
        rw [rlObjectiveTrace, hstep, rlObjectiveTrace_of_rl_training]
        cases i with
        | zero => simp [hg.1, hg.2]
        | succ j =>
            have hj : j < rest.length := by
              simpa using Nat.lt_of_succ_lt_succ h
            rw [List.getD_cons_succ, replicate_getD_true rest.length j hj]
            simp [hg.1, hg.2]
      · have hstep : rlLatchStep use_rl use_rl_after ⟨false, c⟩ e = ⟨false, c⟩ := by
          simp only [rlLatchStep]
          rw [if_neg]
          intro hcon
          exact hg ⟨hcon.1, hcon.2.1⟩
        rw [rlObjectiveTrace, hstep]
        have hge : (decide (use_rl = 1) && decide (use_rl_after ≤ e)) = false := by
          rcases Decidable.not_and_iff_or_not.mp hg with h1 | h2
          · simp [h1]
          · simp [h2]
        cases i with
        | zero => simp [hge]
        | succ j =>
            have hj : j < rest.length := by
              simpa using Nat.lt_of_succ_lt_succ h
            rw [List.getD_cons_succ, ih c j hj]
            simp [hge]

theorem rlObjectiveTrace_length (use_rl use_rl_after : ℤ) (s : RlState)
    (l : List ℤ) :
    (rlObjectiveTrace use_rl use_rl_after s l).length = l.length := by
  induction l generalizing s with
  | nil => rfl
  | cons e rest ih => simp [rlObjectiveTrace, ih]

theorem rlRun_from_fresh (use_rl use_rl_after : ℤ) (c : ℕ) (l : List ℤ) :
    rlRun use_rl use_rl_after ⟨false, c⟩ l
      = if l.any (fun e => decide (use_rl = 1) && decide (use_rl_after ≤ e))
        then ⟨true, c + 1⟩ else ⟨false, c⟩ := by
  induction l generalizing c with
  | nil => rfl
  | cons e rest ih =>
      by_cases hg : use_rl = 1 ∧ use_rl_after ≤ e
      · have hstep : rlLatchStep use_rl use_rl_after ⟨false, c⟩ e = ⟨true, c + 1⟩ := by
          simp [rlLatchStep, hg.1, hg.2]
        simp only [rlRun, List.foldl, hstep]
        have := rlRun_of_rl_training use_rl use_rl_after (c + 1) rest
        simp only [rlRun] at this
        rw [this]
        simp [hg.1, hg.2]
      · have hstep : rlLatchStep use_rl use_rl_after ⟨false, c⟩ e = ⟨false, c⟩ := by
          simp only [rlLatchStep]
          rw [if_neg]
          intro hcon
          exact hg ⟨hcon.1, hcon.2.1⟩
        have hge : (decide (use_rl = 1) && decide (use_rl_after ≤ e)) = false := by
          rcases Decidable.not_and_iff_or_not.mp hg with h1 | h2
          · simp [h1]
          · simp [h2]
        simp only [rlRun, List.foldl, hstep, List.any_cons, hge, Bool.false_or]
        exact ih c

/-- C8: the XE→RL transition is a one-shot latch.  Starting from the fresh
state (`rl_training = False`, no scorer built), the objective chosen at
iteration `i` is the RL objective exactly when some iteration `j ≤ i` already
had RL enabled (`use_rl == 1`) and `epoch ≥ use_rl_after` — so the latch
fires at the first such iteration, the loop never returns to the
cross-entropy objective afterwards, and the metric scorer is instantiated
exactly once if the transition ever fires and never otherwise. -/
theorem rl_latch_spec (use_rl use_rl_after : ℤ) (epochs : List ℤ) :
    (rlObjectiveTrace use_rl use_rl_after ⟨false, 0⟩ epochs).length = epochs.length
    ∧ (∀ i : ℕ, i < epochs.length →
        (rlObjectiveTrace use_rl use_rl_after ⟨false, 0⟩ epochs).getD i false
          = (epochs.take (i + 1)).any
              (fun e => decide (use_rl = 1) && decide (use_rl_after ≤ e)))
    ∧ (rlRun use_rl use_rl_after ⟨false, 0⟩ epochs).scorer_inits
        = (if epochs.any (fun e => decide (use_rl = 1) && decide (use_rl_after ≤ e))
           then 1 else 0)
    ∧ (rlRun use_rl use_rl_after ⟨false, 0⟩ epochs).rl_training
        = epochs.any (fun e => decide (use_rl = 1) && decide (use_rl_after ≤ e)) := by
  refine ⟨?_, ?_, ?_, ?_⟩
  · exact rlObjectiveTrace_length use_rl use_rl_after ⟨false, 0⟩ epochs
  · exact fun i h => rlObjectiveTrace_getD use_rl use_rl_after 0 epochs i h
  · rw [rlRun_from_fresh]
    by_cases h : epochs.any (fun e => decide (use_rl = 1) && decide (use_rl_after ≤ e))
    · simp [h]
    · simp [h]
  · rw [rlRun_from_fresh]
    by_cases h : epochs.any (fun e => decide (use_rl = 1) && decide (use_rl_after ≤ e))
    · simp [h]
    · simp [h]

/-- Witness for `rl_latch_spec`: RL enabled from epoch 1, iterations at
epochs 0, 1, 2: at iteration index 1 the objective is the RL objective. -/
theorem rl_latch_spec_witness :
    (1 : ℕ) < ([0, 1, 2] : List ℤ).length
    ∧ (rlObjectiveTrace 1 1 ⟨false, 0⟩ [0, 1, 2]).getD 1 false
        = (([0, 1, 2] : List ℤ).take 2).any
            (fun e => decide ((1 : ℤ) = 1) && decide ((1 : ℤ) ≤ e)) :=
  ⟨by decide, (rl_latch_spec 1 1 [0, 1, 2]).2.1 1 (by decide)⟩

/-- Python's built-in banker's rounding to an integer (round half to even),
on exact rationals. -/
def roundHalfEven (x : ℚ) : ℤ :=
  if x - ⌊x⌋ < 1 / 2 then ⌊x⌋
  else if 1 / 2 < x - ⌊x⌋ then ⌊x⌋ + 1
  else if Even ⌊x⌋ then ⌊x⌋ else ⌊x⌋ + 1

/-- Python's `round(x, ndigits)` on exact rationals: banker's rounding of
`x * 10^ndigits`, scaled back. -/
def pyRound (ndigits : ℕ) (x : ℚ) : ℚ :=
  ((roundHalfEven (x * 10 ^ ndigits) : ℤ) : ℚ) / 10 ^ ndigits

/-- `num_iters = int(np.ceil(num_videos / batch_size))` (train.py line 284),
with Python-3 true division. -/
def numIters (num_videos batch_size : ℕ) : ℕ :=
  (⌈(num_videos : ℚ) / (batch_size : ℚ)⌉).toNat

/-- `last_batch_size = num_videos % batch_size` (train.py line 285). -/
def lastBatchSize (num_videos batch_size : ℕ) : ℕ :=
  num_videos % batch_size

/-- The per-iteration tensors of a validation batch, viewed as lists of rows:
`feats` is one row-list per feature stream, `labels` and `masks` are row
lists of `batch_size * seq_per_img` caption rows. -/
structure ValBatch (α β : Type) where
  feats : List (List α)
  labels : List β
  masks : List β
deriving DecidableEq

/-- The short-batch slicing of `validate` (train.py lines 302-307): every
feature stream is cut to `last_batch_size` rows, labels and masks to
`last_batch_size * seq_per_img` rows. -/
def sliceValBatch {α β : Type} (last_batch_size seq_per_img : ℕ)
    (b : ValBatch α β) : ValBatch α β :=
  { feats := b.feats.map (fun f => f.take last_batch_size)
    labels := b.labels.take (last_batch_size * seq_per_img)
    masks := b.masks.take (last_batch_size * seq_per_img) }

/-- Batch `ii` of the validation loop (train.py lines 295-307): the batch is
sliced exactly when it is the final iteration and the last batch is short
(`ii == num_iters - 1 and last_batch_size > 0`). -/
def processValBatch {α β : Type} (num_iters last_batch_size seq_per_img ii : ℕ)
    (b : ValBatch α β) : ValBatch α β :=
  if ii = num_iters - 1 ∧ 0 < last_batch_size then
    sliceValBatch last_batch_size seq_per_img b
  else b

/-- `loss = round(loss_sum / num_iters, 3)` (train.py line 349), where
`losses ii` is the criterion loss of validation iteration `ii`. -/
def valLoss (num_videos batch_size : ℕ) (losses : ℕ → ℚ) : ℚ :=
  pyRound 3 ((∑ i in Finset.range (numIters num_videos batch_size), losses i)
    / (numIters num_videos batch_size : ℚ))

/-- The result mapping of `validate` (train.py lines 350-358):
`{'Loss': -loss}` merged with the language-evaluation scores, the latter
taking precedence on a key collision (`dict.update`). -/
def valScores (num_videos batch_size : ℕ) (losses : ℕ → ℚ)
    (lang_stats : String → Option ℚ) : String → Option ℚ :=
  fun key =>
    match lang_stats key with
    | some v => some v
    | none =>
        if key = "Loss" then some (-(valLoss num_videos batch_size losses)) else none

/-- The validation loop of `validate` (train.py lines 277-358): iterate
`num_iters` batches, slicing the final short batch, and produce the result
mapping. -/
def validateRun {α β : Type} (num_videos batch_size seq_per_img : ℕ)
    (batches : ℕ → ValBatch α β) (losses : ℕ → ℚ)
    (lang_stats : String → Option ℚ) :
    List (ValBatch α β) × (String → Option ℚ) :=
  ((List.range (numIters num_videos batch_size)).map
      (fun ii => processValBatch (numIters num_videos batch_size)
        (lastBatchSize num_videos batch_size) seq_per_img ii (batches ii)),
   valScores num_videos batch_size losses lang_stats)

/-- C9, counterexample to the claim as stated: the `'Loss'` entry is not the
exact negated average of the per-batch losses — `validate` rounds the average
to three decimal places first (`round(loss_sum / num_iters, 3)`, line 349).
With one batch of loss `1/3`, the entry is `-0.333`, not `-1/3`. -/
theorem validate_loss_not_exact_average :
    (validateRun 1 1 1 (fun _ => ({ feats := [], labels := [], masks := [] } : ValBatch Unit Unit))
        (fun _ => 1 / 3) (fun _ => none)).2 "Loss" = some (-(333 / 1000 : ℚ))
    ∧ (∑ i in Finset.range (numIters 1 1), (fun _ => (1 / 3 : ℚ)) i)
        / (numIters 1 1 : ℚ) = 1 / 3
    ∧ (-(333 / 1000 : ℚ)) ≠ -(1 / 3) := by
  have hni : numIters 1 1 = 1 := by
    norm_num [numIters]
  have hsum : (∑ i in Finset.range (numIters 1 1), (fun _ => (1 / 3 : ℚ)) i)
      / (numIters 1 1 : ℚ) = 1 / 3 := by
    rw [hni]
    norm_num
  have hfloor : ⌊(1 / 3 : ℚ) * 10 ^ 3⌋ = 333 := by
    rw [show (1 / 3 : ℚ) * 10 ^ 3 = 1000 / 3 by norm_num, Int.floor_eq_iff]
    norm_num
  have hp : pyRound 3 (1 / 3 : ℚ) = 333 / 1000 := by
    rw [pyRound, roundHalfEven, hfloor]
    norm_num
  have hv : valLoss 1 1 (fun _ => (1 / 3 : ℚ)) = 333 / 1000 := by
    rw [valLoss, hsum, hp]
  refine ⟨?_, hsum, by norm_num⟩
  calc (validateRun 1 1 1
        (fun _ => ({ feats := [], labels := [], masks := [] } : ValBatch Unit Unit))
        (fun _ => 1 / 3) (fun _ => none)).2 "Loss"
      = some (-(valLoss 1 1 (fun _ => (1 / 3 : ℚ)))) := rfl
    _ = some (-(333 / 1000 : ℚ)) := by rw [hv]

/-- C9, amended: over a labeled validation set of `num_videos` samples with
batch size `batch_size`, `validate` iterates `ceil(num_videos / batch_size)`
batches; every batch except a final short one passes through unsliced, and a
final short batch is sliced consistently — each feature stream to
`last_batch_size` rows, labels and masks to `last_batch_size * seq_per_img`
rows; the result mapping's `'Loss'` entry is the negation of the per-batch
average loss rounded to three decimal places, merged with the
language-evaluation scores. -/
theorem validate_spec {α β : Type} (num_videos batch_size seq_per_img : ℕ)
    (batches : ℕ → ValBatch α β) (losses : ℕ → ℚ)
    (lang_stats : String → Option ℚ) (hB : 0 < batch_size)
    (hlang : lang_stats "Loss" = none) :
    ((validateRun num_videos batch_size seq_per_img batches losses lang_stats).1.length
        = numIters num_videos batch_size)
    ∧ (num_videos ≤ numIters num_videos batch_size * batch_size)
    ∧ (((numIters num_videos batch_size : ℤ) - 1) * batch_size < num_videos)
    ∧ (∀ (ii : ℕ) (b : ValBatch α β), ii < numIters num_videos batch_size - 1 →
        processValBatch (numIters num_videos batch_size)
          (lastBatchSize num_videos batch_size) seq_per_img ii b = b)
    ∧ (∀ b : ValBatch α β, 0 < lastBatchSize num_videos batch_size →
        (processValBatch (numIters num_videos batch_size)
            (lastBatchSize num_videos batch_size) seq_per_img
            (numIters num_videos batch_size - 1) b).feats
          = b.feats.map (fun f => f.take (lastBatchSize num_videos batch_size))
        ∧ (processValBatch (numIters num_videos batch_size)
            (lastBatchSize num_videos batch_size) seq_per_img
            (numIters num_videos batch_size - 1) b).labels
          = b.labels.take (lastBatchSize num_videos batch_size * seq_per_img)
        ∧ (processValBatch (numIters num_videos batch_size)
            (lastBatchSize num_videos batch_size) seq_per_img
            (numIters num_videos batch_size - 1) b).masks
          = b.masks.take (lastBatchSize num_videos batch_size * seq_per_img)
        ∧ (processValBatch (numIters num_videos batch_size)
            (lastBatchSize num_videos batch_size) seq_per_img
            (numIters num_videos batch_size - 1) b).labels.length
          = min (lastBatchSize num_videos batch_size * seq_per_img) b.labels.length)
    ∧ ((validateRun num_videos batch_size seq_per_img batches losses lang_stats).2 "Loss"
        = some (-(pyRound 3 ((∑ i in Finset.range (numIters num_videos batch_size), losses i)
            / (numIters num_videos batch_size : ℚ))))) := by
  have hB' : (0 : ℚ) < (batch_size : ℚ) := by exact_mod_cast hB
  have hceil_nonneg : (0 : ℤ) ≤ ⌈(num_videos : ℚ) / (batch_size : ℚ)⌉ := by
    apply Int.ceil_nonneg
    positivity
  have hni : ((numIters num_videos batch_size : ℕ) : ℤ)
      = ⌈(num_videos : ℚ) / (batch_size : ℚ)⌉ := by
    simp [numIters, Int.toNat_of_nonneg hceil_nonneg]
  refine ⟨?_, ?_, ?_, ?_, ?_, ?_⟩
  · simp [validateRun]
  · have h1 : (num_videos : ℚ) / (batch_size : ℚ)
        ≤ (⌈(num_videos : ℚ) / (batch_size : ℚ)⌉ : ℚ) := Int.le_ceil _
    have h2 : (num_videos : ℚ)
        ≤ (⌈(num_videos : ℚ) / (batch_size : ℚ)⌉ : ℚ) * (batch_size : ℚ) := by
      rw [div_le_iff₀ hB'] at h1
      exact h1
    have h3 : (num_videos : ℚ)
        ≤ ((numIters num_videos batch_size : ℕ) : ℚ) * (batch_size : ℚ) := by
      have : ((numIters num_videos batch_size : ℕ) : ℚ)
          = ((⌈(num_videos : ℚ) / (batch_size : ℚ)⌉ : ℤ) : ℚ) := by
        exact_mod_cast congrArg (fun z : ℤ => (z : ℚ)) hni
      rw [this]
      exact h2
    exact_mod_cast h3
  · have h1 : (⌈(num_videos : ℚ) / (batch_size : ℚ)⌉ : ℚ) - 1
        < (num_videos : ℚ) / (batch_size : ℚ) := by
      have := Int.ceil_lt_add_one ((num_videos : ℚ) / (batch_size : ℚ))
      push_cast at this ⊢
      linarith
    have h2 : ((⌈(num_videos : ℚ) / (batch_size : ℚ)⌉ : ℚ) - 1) * (batch_size : ℚ)
        < (num_videos : ℚ) := by
      rw [← lt_div_iff₀ hB']
      exact h1
    have h3 : (((numIters num_videos batch_size : ℕ) : ℚ) - 1) * (batch_size : ℚ)
        < (num_videos : ℚ) := by
      have hq : ((numIters num_videos batch_size : ℕ) : ℚ)
          = ((⌈(num_videos : ℚ) / (batch_size : ℚ)⌉ : ℤ) : ℚ) := by
        exact_mod_cast congrArg (fun z : ℤ => (z : ℚ)) hni
      rw [hq]
      exact h2
    exact_mod_cast h3
  · intro ii b hii
    have : ¬ (ii = numIters num_videos batch_size - 1
        ∧ 0 < lastBatchSize num_videos batch_size) := by
      rintro ⟨h1, -⟩
      omega
    simp [processValBatch, this]
  · intro b hlb
    have hcond : ((numIters num_videos batch_size - 1 : ℕ)
        = numIters num_videos batch_size - 1
        ∧ 0 < lastBatchSize num_videos batch_size) := ⟨rfl, hlb⟩
    simp [processValBatch, hcond, sliceValBatch, List.length_take]
  · simp [validateRun, valScores, hlang, valLoss]

/-- Witness for `validate_spec`: 3 videos with batch size 2 give 2 iterations
and a short last batch of 1 row. -/
theorem validate_spec_witness :
    (0 < 2)
    ∧ ((fun _ => (none : Option ℚ)) "Loss" = none)
    ∧ ((validateRun 3 2 1 (fun _ => ({ feats := [], labels := [], masks := [] } : ValBatch Unit Unit))
          (fun _ => 0) (fun _ => none)).1.length = numIters 3 2)
    ∧ (3 ≤ numIters 3 2 * 2)
    ∧ ((validateRun 3 2 1 (fun _ => ({ feats := [], labels := [], masks := [] } : ValBatch Unit Unit))
          (fun _ => 0) (fun _ => none)).2 "Loss"
        = some (-(pyRound 3 ((∑ i in Finset.range (numIters 3 2), (fun _ => (0 : ℚ)) i)
            / (numIters 3 2 : ℚ))))) := by
  have h := validate_spec 3 2 1
    (fun _ => ({ feats := [], labels := [], masks := [] } : ValBatch Unit Unit))
    (fun _ => 0) (fun _ => none) (by decide) rfl
  exact ⟨by decide, rfl, h.1, h.2.1, h.2.2.2.2.2⟩

end CstCaptioning
